import Mathlib

/-!
Shallow embedding of the log-range analytics and batch-execution engine of
`src/services/services.ts` (somnia-mcp), together with proofs of the spec's
testable properties.

External effects (RPC `getLogs`, `writeContract`, `sendTransaction`,
`readContract` on the multicall contract) are modelled as explicit oracle
parameters or, for batch loops where each item is attempted at most once, as
an outcome attached to each item.  JavaScript `Map` objects are modelled as
insertion-ordered association lists, JS `bigint` as `Int`/`Nat`, JS numeric
block bounds as `Int`, and JS string operations (`slice`) by their
list-of-characters counterparts.  The file is organised as definitions
first, then lemmas and the claim theorems.
-/

namespace SomniaMcp

/-! Chunked Log Fetcher: `getContractEvents`, services.ts lines 913-1003. -/

/-- The constant `MAX_BLOCK_RANGE = 1000` of `getContractEvents`. -/
def MAX_BLOCK_RANGE : Int := 1000

/-- JS falsiness of an optional numeric parameter: `!x` is true when the
argument is `undefined` (`none`) or `0`. -/
def jsFalsy : Option Int → Bool
  | none => true
  | some v => v == 0

/-- JS `x || d` for an optional numeric `x`: yields `d` when `x` is
`undefined` or `0`, else `x`. -/
def jsOr : Option Int → Int → Int
  | none, d => d
  | some v, d => if v = 0 then d else v

/-- Resolution of the block bounds in `getContractEvents`:
`if (!fromBlock || !toBlock) { fromBlock = fromBlock || latest - 1000;
toBlock = toBlock || latest }`. -/
def resolveEventRange (fromBlock? toBlock? : Option Int) (latestBlock : Int) :
    Int × Int :=
  if jsFalsy fromBlock? || jsFalsy toBlock? then
    (jsOr fromBlock? (latestBlock - 1000), jsOr toBlock? latestBlock)
  else
    (fromBlock?.getD 0, toBlock?.getD 0)

/-- Resolution of the block bounds in `getERC20TopHolders`:
`toBlock = toBlock || latest; fromBlock = fromBlock || max(0, latest - 10000)`
guarded by the same `if (!fromBlock || !toBlock)`. -/
def resolveHoldersRange (fromBlock? toBlock? : Option Int) (latestBlock : Int) :
    Int × Int :=
  if jsFalsy fromBlock? || jsFalsy toBlock? then
    (jsOr fromBlock? (max 0 (latestBlock - 10000)), jsOr toBlock? latestBlock)
  else
    (fromBlock?.getD 0, toBlock?.getD 0)

/-- The chunking loop of `getContractEvents`: starting from `currentStart`,
emit `(currentStart, currentEnd)` with
`currentEnd = currentStart + 1000 > endBlock ? endBlock : currentStart + 1000`
and continue at `currentEnd + 1` while `currentStart <= endBlock`. -/
def chunkRanges (currentStart endBlock : Int) : List (Int × Int) :=
  if h : currentStart ≤ endBlock then
    (currentStart,
      if currentStart + MAX_BLOCK_RANGE > endBlock then endBlock
      else currentStart + MAX_BLOCK_RANGE) ::
    chunkRanges
      ((if currentStart + MAX_BLOCK_RANGE > endBlock then endBlock
        else currentStart + MAX_BLOCK_RANGE) + 1) endBlock
  else []
termination_by (endBlock + 1 - currentStart).toNat
decreasing_by
  simp only [MAX_BLOCK_RANGE]
  split <;> omega

/-- A list of `n` consecutive block numbers starting at `a`. -/
def blockListGo : Nat → Int → List Int
  | 0, _ => []
  | n + 1, a => a :: blockListGo n (a + 1)

/-- The block numbers of the inclusive range `[a, b]`, in increasing order. -/
def blockList (a b : Int) : List Int :=
  blockListGo (b + 1 - a).toNat a

/-- The sequence of `(fromBlock, toBlock)` filters passed to `client.getLogs`
by `getContractEvents`: the chunk list when the span exceeds
`MAX_BLOCK_RANGE`, else a single query with the resolved bounds. -/
def getContractEventsQueries (fromBlock? toBlock? : Option Int)
    (latestBlock : Int) : List (Int × Int) :=
  let r := resolveEventRange fromBlock? toBlock? latestBlock
  if MAX_BLOCK_RANGE < r.2 - r.1 then chunkRanges r.1 r.2 else [(r.1, r.2)]

/-- A raw event log, restricted to the fields the aggregator reads. -/
structure RawLog where
  topics : List String
  data : String
deriving DecidableEq, Repr

/-- Model of `getContractEvents` with `client.getLogs` as an oracle.  In the
chunked branch each chunk's failure is swallowed (`catch` → skip chunk); in
the single-query branch a `getLogs` failure propagates. -/
def getContractEventsModel (fromBlock? toBlock? : Option Int)
    (latestBlock : Int) (getLogs : Int → Int → Except String (List RawLog)) :
    Except String (List RawLog) :=
  let r := resolveEventRange fromBlock? toBlock? latestBlock
  if MAX_BLOCK_RANGE < r.2 - r.1 then
    Except.ok ((chunkRanges r.1 r.2).flatMap
      (fun p => ((getLogs p.1 p.2).toOption).getD []))
  else
    getLogs r.1 r.2

/-- A `getLogs` oracle that always succeeds with no logs. -/
def constEmptyLogs : Int → Int → Except String (List RawLog) :=
  fun _ _ => Except.ok []

/-- The explicit range validation of `getERC20TopHolders` (services.ts lines
1626-1628): `if (fromBlock > toBlock) throw new Error("fromBlock cannot be
greater than toBlock")`. -/
def erc20RangeCheck (fromBlock toBlock : Int) : Except String Unit :=
  if fromBlock > toBlock then
    Except.error "fromBlock cannot be greater than toBlock"
  else
    Except.ok ()

/-- The block numbers covered, in order, by a sequence of `getLogs` range
queries. -/
def coveredBlocks (qs : List (Int × Int)) : List Int :=
  qs.flatMap (fun p => blockList p.1 p.2)

/-! Event Aggregator: the balance fold of `getERC20TopHolders`, services.ts
lines 1641-1668. -/

/-- The zero-address sentinel compared against the decoded from-address. -/
def ZERO_ADDRESS : String := "0x0000000000000000000000000000000000000000"

/-- Numeric value of one hexadecimal digit, or `none`. -/
def hexDigitVal? (c : Char) : Option Nat :=
  if '0' ≤ c ∧ c ≤ '9' then some (c.toNat - '0'.toNat)
  else if 'a' ≤ c ∧ c ≤ 'f' then some (c.toNat - 'a'.toNat + 10)
  else if 'A' ≤ c ∧ c ≤ 'F' then some (c.toNat - 'A'.toNat + 10)
  else none

/-- Accumulating hex parse over a character list. -/
def parseHexGo : List Char → Nat → Option Nat
  | [], acc => some acc
  | c :: cs, acc =>
    match hexDigitVal? c with
    | some v => parseHexGo cs (acc * 16 + v)
    | none => none

/-- JS `BigInt("0x" + s)`: succeeds iff `s` is a nonempty string of hex
digits, else the constructor throws (modelled as `none`). -/
def parseHex? (s : String) : Option Nat :=
  if s.data.isEmpty then none else parseHexGo s.data 0

/-- JS `s.slice(n)` for a nonnegative index. -/
def jsSliceFrom (s : String) (n : Nat) : String :=
  ⟨s.data.drop n⟩

/-- JS `s.slice(-n)`: the last `n` characters (the whole string when it is
shorter than `n`). -/
def jsSliceLast (s : String) (n : Nat) : String :=
  ⟨s.data.drop (s.data.length - n)⟩

/-- Address extraction from an indexed topic:
`` `0x${topic.slice(26)}` ``. -/
def topicToAddress (topic : String) : String :=
  "0x" ++ jsSliceFrom topic 26

/-- One iteration of the event fold, up to the point where the ledger is
mutated: the guard `topics && topics.length >= 3 && data`, the two address
extractions, and the value parse `BigInt("0x" + data.slice(-64))`.  A `none`
result is a skipped (malformed) event: the parse throw is caught before any
balance is updated. -/
def transferDelta? (log : RawLog) : Option (String × String × Nat) :=
  if 3 ≤ log.topics.length ∧ log.data ≠ "" then
    match parseHex? (jsSliceLast log.data 64) with
    | some v =>
        some (topicToAddress (log.topics.getD 1 ""),
              topicToAddress (log.topics.getD 2 ""), v)
    | none => none
  else none

/-- The balance ledger: a JS `Map<string, bigint>` as an insertion-ordered
association list. -/
abbrev Ledger := List (String × Int)

/-- JS `map.get(key)`. -/
def mapGet : Ledger → String → Option Int
  | [], _ => none
  | (k, v) :: rest, key => if k = key then some v else mapGet rest key

/-- JS `map.set(key, val)`: updates an existing key in place, else appends. -/
def mapSet : Ledger → String → Int → Ledger
  | [], key, val => [(key, val)]
  | (k, v) :: rest, key, val =>
    if k = key then (k, val) :: rest else (k, v) :: mapSet rest key val

/-- The debit half of the fold body: subtract the value from the sender's
balance unless the sender is the zero address (mint). -/
def debitStep (ledger : Ledger) (fromAddr : String) (value : Nat) : Ledger :=
  if fromAddr ≠ ZERO_ADDRESS then
    mapSet ledger fromAddr ((mapGet ledger fromAddr).getD 0 - value)
  else ledger

/-- One full iteration of the event fold: decode, debit (unless mint), then
credit the recipient. -/
def processLog (ledger : Ledger) (log : RawLog) : Ledger :=
  match transferDelta? log with
  | none => ledger
  | some (fromAddr, toAddr, value) =>
    mapSet (debitStep ledger fromAddr value) toAddr
      ((mapGet (debitStep ledger fromAddr value) toAddr).getD 0 + value)

/-- The balance ledger built by folding all events in order. -/
def buildLedger (logs : List RawLog) : Ledger :=
  logs.foldl processLog []

/-- Whether processing `log` touches the ledger entry of address `a` (as a
debited sender or as a credited recipient). -/
def touchesB (a : String) (log : RawLog) : Bool :=
  match transferDelta? log with
  | some (f, t, _) => ((f != ZERO_ADDRESS) && (f == a)) || (t == a)
  | none => false

/-- The signed contribution of one log to the entry of address `a`. -/
def logDelta (a : String) (log : RawLog) : Int :=
  match transferDelta? log with
  | none => 0
  | some (f, t, v) =>
    (if f ≠ ZERO_ADDRESS ∧ f = a then -(v : Int) else 0) +
    (if t = a then (v : Int) else 0)

/-- The net contribution of a log sequence to the entry of address `a`. -/
def netDelta (a : String) (logs : List RawLog) : Int :=
  (logs.map (logDelta a)).sum

/-- A well-formed Transfer log in the sense of the spec: 3 topics and a
`0x`-prefixed data payload of at least 64 hex characters. -/
def isWellFormedTransferLog (lg : RawLog) : Bool :=
  lg.topics.length == 3 && lg.data.data.take 2 == ['0', 'x'] &&
    decide (66 ≤ lg.data.length) &&
    (lg.data.data.drop 2).all (fun c => (hexDigitVal? c).isSome)

/-- The value a log contributes as a mint (zero from-address), else 0. -/
def mintValue (lg : RawLog) : Int :=
  match transferDelta? lg with
  | some (f, _, v) => if f = ZERO_ADDRESS then (v : Int) else 0
  | none => 0

/-- Whether a log decodes to a Transfer from the zero address. -/
def isMintLog (lg : RawLog) : Bool :=
  match transferDelta? lg with
  | some (f, _, _) => f == ZERO_ADDRESS
  | none => false

/-- The sum of all balance deltas in a ledger. -/
def ledgerSum (m : Ledger) : Int :=
  (m.map (fun p => p.2)).sum

/-! Ranking Engine: filter, sort and truncate, services.ts lines 1670-1714. -/

/-- A ranked holder, restricted to the fields the claims mention. -/
structure HolderEntry where
  address : String
  balanceRaw : Int
deriving DecidableEq, Repr

/-- `Array.from(balances.entries()).filter(([_, b]) => b > 0n).sort(([, a],
[, b]) => (b > a ? 1 : b < a ? -1 : 0))`: the holders with positive balance,
stably sorted by descending balance. -/
def holdersWithBalance (balances : Ledger) : Ledger :=
  (balances.filter (fun p => decide (0 < p.2))).mergeSort
    (fun x y => decide (y.2 ≤ x.2))

/-- `holdersWithBalance.slice(0, limit).map(...)`: the ranked, truncated
holder list. -/
def topHolders (balances : Ledger) (limit : Nat) : List HolderEntry :=
  ((holdersWithBalance balances).take limit).map (fun p => ⟨p.1, p.2⟩)

/-! Batch Executor: `batchWriteContract` (services.ts lines 1156-1268),
`batchTransferNative` (lines 2354-2446) and `batchTransferERC20` (lines
2448-2572).  The wallet client's behaviour for each operation is attached to
the operation as an outcome; each operation is attempted at most once. -/

/-- The outcome of the signer call for one operation, had it been made. -/
inductive WriteOutcome where
  | ok (txHash : String)
  | err (msg : String)
deriving DecidableEq, Repr

/-- One contract-write operation together with its signer outcome. -/
structure BatchOp where
  contractAddress : String
  functionName : String
  outcome : WriteOutcome
deriving DecidableEq, Repr

/-- One entry of `batchWriteContract`'s result list. -/
structure BatchEntry where
  index : Nat
  contractAddress : String
  functionName : String
  success : Bool
  txHash : Option String
  error : Option String
deriving DecidableEq, Repr

/-- The mutable loop state of `batchWriteContract`: counters, result list
and the trace of indices whose `writeContract` call was attempted. -/
structure BatchRunState where
  successfulOperations : Nat
  failedOperations : Nat
  results : List BatchEntry
  attempted : List Nat
deriving Repr

/-- The synthetic failure entry recorded for a null operation at index `i`:
`{index: i, contractAddress: "unknown", functionName: "unknown",
success: false, error: "Invalid operation at index " + i}`. -/
def nullEntry (i : Nat) : BatchEntry :=
  ⟨i, "unknown", "unknown", false, none,
    some ("Invalid operation at index " ++ toString i)⟩

/-- The loop of `batchWriteContract`: a null operation records a synthetic
failure and continues; a successful write records success; a throwing write
records failure and, when `continueOnError` is false, breaks. -/
def batchWriteGo (continueOnError : Bool) :
    Nat → List (Option BatchOp) → BatchRunState
  | _, [] => ⟨0, 0, [], []⟩
  | i, none :: rest =>
    let s := batchWriteGo continueOnError (i + 1) rest
    ⟨s.successfulOperations, s.failedOperations + 1,
      nullEntry i :: s.results, s.attempted⟩
  | i, some op :: rest =>
    match op.outcome with
    | .ok h =>
      let s := batchWriteGo continueOnError (i + 1) rest
      ⟨s.successfulOperations + 1, s.failedOperations,
        ⟨i, op.contractAddress, op.functionName, true, some h, none⟩ ::
          s.results, i :: s.attempted⟩
    | .err m =>
      if continueOnError then
        let s := batchWriteGo continueOnError (i + 1) rest
        ⟨s.successfulOperations, s.failedOperations + 1,
          ⟨i, op.contractAddress, op.functionName, false, none, some m⟩ ::
            s.results, i :: s.attempted⟩
      else
        ⟨0, 1, [⟨i, op.contractAddress, op.functionName, false, none, some m⟩],
          [i]⟩

/-- The aggregate result of `batchWriteContract`. -/
structure BatchWriteResult where
  success : Bool
  totalOperations : Nat
  successfulOperations : Nat
  failedOperations : Nat
  results : List BatchEntry
  attempted : List Nat
deriving Repr

/-- `batchWriteContract(operations, continueOnError)`:
`success := failedOperations === 0`, `totalOperations := operations.length`.
The network parameter is irrelevant to the claims and omitted. -/
def batchWriteContract (ops : List (Option BatchOp)) (continueOnError : Bool) :
    BatchWriteResult :=
  let s := batchWriteGo continueOnError 0 ops
  ⟨s.failedOperations == 0, ops.length, s.successfulOperations,
    s.failedOperations, s.results, s.attempted⟩

/-- Whether an operation's write throws (nulls never reach the write). -/
def opThrows : Option BatchOp → Bool
  | none => false
  | some op =>
    match op.outcome with
    | .ok _ => false
    | .err _ => true

/-- The index of the first operation whose write throws, if any. -/
def firstThrowIdx? : List (Option BatchOp) → Option Nat
  | [] => none
  | op :: rest =>
    if opThrows op then some 0 else (firstThrowIdx? rest).map (· + 1)

/-- One native or ERC20 transfer together with its signer outcome (a thrown
`parseEther`/`parseUnits` is also an `err` outcome: both happen inside the
same `try`). -/
structure TransferOp where
  toAddr : String
  amount : String
  outcome : WriteOutcome
deriving DecidableEq, Repr

/-- One entry of the batch-transfer result lists (`to` is `toAddr` here
because `to` is reserved in Lean). -/
structure TransferEntry where
  index : Nat
  toAddr : String
  amount : String
  success : Bool
  txHash : Option String
  error : Option String
deriving DecidableEq, Repr

/-- The loop state of the two batch-transfer functions. -/
structure BatchTransferState where
  successfulTransfers : Nat
  failedTransfers : Nat
  results : List TransferEntry
  attempted : List Nat
deriving Repr

/-- The shared loop of `batchTransferNative` and `batchTransferERC20`: a
null transfer is skipped with `if (!transfer) continue;` (no entry, no
counter change, no attempt); otherwise the try-block records one success or
failure entry. -/
def batchTransferGo : Nat → List (Option TransferOp) → BatchTransferState
  | _, [] => ⟨0, 0, [], []⟩
  | i, none :: rest => batchTransferGo (i + 1) rest
  | i, some tr :: rest =>
    let s := batchTransferGo (i + 1) rest
    match tr.outcome with
    | .ok h =>
      ⟨s.successfulTransfers + 1, s.failedTransfers,
        ⟨i, tr.toAddr, tr.amount, true, some h, none⟩ :: s.results,
        i :: s.attempted⟩
    | .err m =>
      ⟨s.successfulTransfers, s.failedTransfers + 1,
        ⟨i, tr.toAddr, tr.amount, false, none, some m⟩ :: s.results,
        i :: s.attempted⟩

/-- The aggregate result of the batch-transfer functions. -/
structure BatchTransferResult where
  totalTransfers : Nat
  successfulTransfers : Nat
  failedTransfers : Nat
  results : List TransferEntry
  attempted : List Nat
deriving Repr

/-- `batchTransferNative(network, transfers)`:
`totalTransfers := transfers.length`. -/
def batchTransferNative (transfers : List (Option TransferOp)) :
    BatchTransferResult :=
  let s := batchTransferGo 0 transfers
  ⟨transfers.length, s.successfulTransfers, s.failedTransfers, s.results,
    s.attempted⟩

/-- `batchTransferERC20(network, tokenAddress, transfers)`: identical loop;
the token decimals only feed `parseUnits`, whose throw is part of each
transfer's outcome. -/
def batchTransferERC20 (decimals : Nat)
    (transfers : List (Option TransferOp)) : BatchTransferResult :=
  let s := batchTransferGo 0 transfers
  ⟨transfers.length, s.successfulTransfers, s.failedTransfers, s.results,
    s.attempted⟩

/-! Multicall Aggregator: `multicall3`, services.ts lines 1051-1109. -/

/-- The network name `"Somnia Testnet"` (constants file), the network
without aggregate3 support. -/
def TEST_NETWORK : String := "Somnia Testnet"

/-- One input call of `multicall3`. -/
structure MulticallCall where
  target : String
  callData : String
  value : Option String
deriving Repr

/-- One output entry of `multicall3`. -/
structure MulticallResult where
  success : Bool
  returnData : String
deriving DecidableEq, Repr

/-- `result[1].map((returnData) => ({success: true, returnData}))`: the
per-entry wrapping of an `aggregate` return payload. -/
def toAggregateResults (rds : List String) : List MulticallResult :=
  rds.map (fun rd => ⟨true, rd⟩)

/-- Model of `multicall3` with the two on-chain batching calls as oracles:
on `TEST_NETWORK` it calls `aggregate` (all-or-nothing) and marks every
returned entry `success: true`; on other networks it calls `aggregate3` and
passes each per-call flag through. -/
def multicall3Model (network : String)
    (aggregateResult : Except String (List String))
    (aggregate3Result : Except String (List (Bool × String))) :
    Except String (List MulticallResult) :=
  if network = TEST_NETWORK then
    match aggregateResult with
    | Except.ok rds => Except.ok (toAggregateResults rds)
    | Except.error e => Except.error e
  else
    match aggregate3Result with
    | Except.ok items => Except.ok (items.map (fun it => ⟨it.1, it.2⟩))
    | Except.error e => Except.error e

/-! Concrete fixtures used by the witnesses. -/

/-- The Transfer event signature topic. -/
def TOPIC_TRANSFER : String :=
  "0xddf252ad1be2c89b69c2b068fc378daa952ba7f163c4a11628f55a4df523b3ef"

/-- Indexed-topic encoding of address A (24 zero hex chars of padding). -/
def topicOfA : String :=
  "0x000000000000000000000000aaaaaaaaaaaaaaaaaaaaaaaaaaaaaaaaaaaaaaaa"

/-- Indexed-topic encoding of address B. -/
def topicOfB : String :=
  "0x000000000000000000000000bbbbbbbbbbbbbbbbbbbbbbbbbbbbbbbbbbbbbbbb"

/-- Indexed-topic encoding of the zero address. -/
def topicZero : String :=
  "0x0000000000000000000000000000000000000000000000000000000000000000"

/-- Address A as decoded by the aggregator. -/
def addrA : String := "0xaaaaaaaaaaaaaaaaaaaaaaaaaaaaaaaaaaaaaaaa"

/-- Address B as decoded by the aggregator. -/
def addrB : String := "0xbbbbbbbbbbbbbbbbbbbbbbbbbbbbbbbbbbbbbbbb"

/-- A 32-byte data payload encoding the value 100 (0x64). -/
def data100 : String :=
  "0x0000000000000000000000000000000000000000000000000000000000000064"

/-- A 32-byte data payload encoding the value 40 (0x28). -/
def data40 : String :=
  "0x0000000000000000000000000000000000000000000000000000000000000028"

/-- A Transfer of 100 from A to B. -/
def logAB : RawLog := ⟨[TOPIC_TRANSFER, topicOfA, topicOfB], data100⟩

/-- A Transfer of 40 from B to A. -/
def logBA : RawLog := ⟨[TOPIC_TRANSFER, topicOfB, topicOfA], data40⟩

/-- A mint of 100 to B (from-address is the zero address). -/
def mintLogB : RawLog := ⟨[TOPIC_TRANSFER, topicZero, topicOfB], data100⟩

/-- A batch operation whose write succeeds. -/
def opOk : BatchOp := ⟨"0x00c0ffee", "setValue", WriteOutcome.ok "0xabc1"⟩

/-- A batch operation whose write throws. -/
def opErr : BatchOp := ⟨"0x00c0ffee", "setValue",
  WriteOutcome.err "execution reverted"⟩

/-- A demo operation list whose first throwing write is at index 1. -/
def demoOps : List (Option BatchOp) := [some opOk, some opErr, some opOk]

/-- A demo ledger for the ranking witness. -/
def demoLedger : Ledger := [(addrA, 60), (addrB, 5)]

/-- Demo multicall inputs. -/
def demoCalls : List MulticallCall := [⟨"0x11", "0xaa", none⟩,
  ⟨"0x22", "0xbb", none⟩]

/-- Demo `aggregate` return payload, one entry per demo call. -/
def demoReturnData : List String := ["0x01", "0x02"]

/-! Lemmas about the chunking loop. -/

lemma chunkRanges_eq_cons (s t e : Int) (h : s ≤ t)
    (he : e = if s + MAX_BLOCK_RANGE > t then t else s + MAX_BLOCK_RANGE) :
    chunkRanges s t = (s, e) :: chunkRanges (e + 1) t := by
  rw [chunkRanges, dif_pos h, ← he]

lemma chunkRanges_eq_nil (s t : Int) (h : ¬ s ≤ t) : chunkRanges s t = [] := by
  rw [chunkRanges, dif_neg h]

lemma chunkRanges_100_2500 :
    chunkRanges 100 2500 = [(100, 1100), (1101, 2101), (2102, 2500)] := by
  rw [chunkRanges_eq_cons 100 2500 1100 (by norm_num)
      (by norm_num [MAX_BLOCK_RANGE])]
  norm_num
  rw [chunkRanges_eq_cons 1101 2500 2101 (by norm_num)
      (by norm_num [MAX_BLOCK_RANGE])]
  norm_num
  rw [chunkRanges_eq_cons 2102 2500 2500 (by norm_num)
      (by norm_num [MAX_BLOCK_RANGE])]
  norm_num
  rw [chunkRanges_eq_nil 2501 2500 (by norm_num)]

lemma blockListGo_add (n1 n2 : Nat) (a : Int) :
    blockListGo (n1 + n2) a = blockListGo n1 a ++ blockListGo n2 (a + n1) := by
  induction n1 generalizing a with
  | zero => simp [blockListGo]
  | succ m ih =>
      have hsum : m + 1 + n2 = (m + n2) + 1 := by omega
      rw [hsum]
      simp only [blockListGo, ih (a + 1), List.cons_append]
      have hc : a + 1 + (m : Int) = a + (m + 1 : Nat) := by push_cast; ring
      rw [hc]

lemma blockList_append (f e t : Int) (h1 : f ≤ e + 1) (h2 : e ≤ t) :
    blockList f e ++ blockList (e + 1) t = blockList f t := by
  unfold blockList
  have hn : (t + 1 - f).toNat = (e + 1 - f).toNat + (t + 1 - (e + 1)).toNat := by
    omega
  rw [hn, blockListGo_add]
  congr 2
  omega

lemma chunkRanges_cover (t : Int) : ∀ s : Int,
    (chunkRanges s t).flatMap (fun p => blockList p.1 p.2) = blockList s t := by
  intro s
  by_cases h : s ≤ t
  · rw [chunkRanges, dif_pos h]
    simp only [List.flatMap_cons]
    set e : Int := if s + MAX_BLOCK_RANGE > t then t else s + MAX_BLOCK_RANGE
      with he
    have hse : s ≤ e := by rw [he]; simp only [MAX_BLOCK_RANGE]; split <;> omega
    have het : e ≤ t := by rw [he]; simp only [MAX_BLOCK_RANGE]; split <;> omega
    rw [chunkRanges_cover t (e + 1)]
    exact blockList_append s e t (by omega) het
  · rw [chunkRanges, dif_neg h]
    simp only [List.flatMap_nil]
    unfold blockList
    have h0 : (t + 1 - s).toNat = 0 := by omega
    rw [h0]
    rfl
termination_by s => (t + 1 - s).toNat
decreasing_by
  simp only [MAX_BLOCK_RANGE] at *
  omega

lemma resolveEventRange_explicit (f t l : Int) (hf : f ≠ 0) (ht : t ≠ 0) :
    resolveEventRange (some f) (some t) l = (f, t) := by
  simp [resolveEventRange, jsFalsy, hf, ht]

/-! Lemmas about the ledger fold. -/

lemma mapGet_mapSet (m : Ledger) (k : String) (v : Int) (a : String) :
    mapGet (mapSet m k v) a = if k = a then some v else mapGet m a := by
  induction m with
  | nil => simp [mapSet, mapGet]
  | cons p rest ih =>
      obtain ⟨k', v'⟩ := p
      by_cases hk : k' = k
      · subst hk
        simp only [mapSet, if_pos rfl, mapGet]
        by_cases ha : k' = a <;> simp [ha]
      · simp only [mapSet, if_neg hk, mapGet, ih]
        by_cases ha' : k' = a
        · by_cases ha : k = a
          · exact absurd (ha'.trans ha.symm) hk
          · simp [ha', ha]
        · simp [ha']

lemma mapGet_debitStep (m : Ledger) (f : String) (v : Nat) (a : String) :
    mapGet (debitStep m f v) a =
      if f ≠ ZERO_ADDRESS ∧ f = a then some ((mapGet m a).getD 0 - v)
      else mapGet m a := by
  unfold debitStep
  by_cases hf : f ≠ ZERO_ADDRESS
  · rw [if_pos hf, mapGet_mapSet]
    by_cases hfa : f = a
    · subst hfa
      simp [hf]
    · simp [hfa]
  · rw [if_neg hf]
    simp [hf]

lemma processLog_get (m : Ledger) (log : RawLog) (a : String) :
    mapGet (processLog m log) a =
      if (mapGet m a).isSome || touchesB a log then
        some ((mapGet m a).getD 0 + logDelta a log)
      else none := by
  cases hd : transferDelta? log with
  | none =>
      simp only [processLog, touchesB, logDelta, hd]
      cases hm : mapGet m a <;> simp
  | some ftv =>
      obtain ⟨f, t, v⟩ := ftv
      simp only [processLog, touchesB, logDelta, hd]
      simp only [mapGet_mapSet, mapGet_debitStep]
      by_cases hz : f = ZERO_ADDRESS <;> by_cases hfa : f = a <;>
        by_cases hta : t = a <;>
        cases hma : mapGet m a <;> cases hmt : mapGet m t <;>
        simp_all [Option.getD] <;> omega

lemma logDelta_eq_zero (a : String) (lg : RawLog)
    (h : touchesB a lg = false) : logDelta a lg = 0 := by
  unfold touchesB at h
  unfold logDelta
  cases hd : transferDelta? lg with
  | none => rfl
  | some ftv =>
      obtain ⟨f, t, v⟩ := ftv
      rw [hd] at h
      simp only [Bool.or_eq_false_iff, Bool.and_eq_false_iff,
        bne_eq_false_iff_eq, beq_eq_false_iff_ne, ne_eq] at h
      obtain ⟨h1, h2⟩ := h
      show (if f ≠ ZERO_ADDRESS ∧ f = a then -(v : Int) else 0) +
        (if t = a then (v : Int) else 0) = 0
      rw [if_neg, if_neg h2]
      · ring
      · rintro ⟨hnz, hfa⟩
        rcases h1 with h1 | h1
        · exact hnz h1
        · exact h1 hfa

lemma foldl_processLog_get (logs : List RawLog) : ∀ (m : Ledger) (a : String),
    mapGet (logs.foldl processLog m) a =
      if (mapGet m a).isSome || logs.any (touchesB a) then
        some ((mapGet m a).getD 0 + netDelta a logs)
      else none := by
  induction logs with
  | nil =>
      intro m a
      simp only [List.foldl_nil, List.any_nil, Bool.or_false, netDelta,
        List.map_nil, List.sum_nil, add_zero]
      cases hm : mapGet m a <;> simp
  | cons lg rest ih =>
      intro m a
      simp only [List.foldl_cons, List.any_cons]
      rw [ih (processLog m lg) a, processLog_get]
      have hnet : netDelta a (lg :: rest) = logDelta a lg + netDelta a rest := by
        simp [netDelta]
      rw [hnet]
      by_cases h1 : (mapGet m a).isSome = true
      · obtain ⟨x, hx⟩ := Option.isSome_iff_exists.mp h1
        rw [hx]
        simp [add_assoc]
      · have hx : mapGet m a = none := by
          cases hmm : mapGet m a
          · rfl
          · rw [hmm] at h1
            simp at h1
        rw [hx]
        by_cases h2 : touchesB a lg = true
        · simp [h2, add_assoc]
        · have h0 : logDelta a lg = 0 :=
            logDelta_eq_zero a lg (Bool.eq_false_iff.mpr h2)
          simp [Bool.eq_false_iff.mpr h2, h0]

lemma any_touchesB_perm (l1 l2 : List RawLog) (hperm : l1.Perm l2)
    (a : String) : l1.any (touchesB a) = l2.any (touchesB a) := by
  cases h : l2.any (touchesB a) with
  | true =>
      rw [List.any_eq_true] at *
      obtain ⟨x, hx, hpx⟩ := h
      exact ⟨x, hperm.mem_iff.mpr hx, hpx⟩
  | false =>
      rw [Bool.eq_false_iff] at *
      intro hc
      apply h
      rw [List.any_eq_true] at *
      obtain ⟨x, hx, hpx⟩ := hc
      exact ⟨x, hperm.mem_iff.mp hx, hpx⟩

lemma netDelta_perm (l1 l2 : List RawLog) (hperm : l1.Perm l2) (a : String) :
    netDelta a l1 = netDelta a l2 :=
  (hperm.map (logDelta a)).sum_eq

lemma ledgerSum_mapSet (m : Ledger) (k : String) (v : Int) :
    ledgerSum (mapSet m k v) = ledgerSum m + v - (mapGet m k).getD 0 := by
  induction m with
  | nil => simp [mapSet, mapGet, ledgerSum]
  | cons p rest ih =>
      obtain ⟨k2, v2⟩ := p
      by_cases hk : k2 = k
      · subst hk
        have h1 : mapSet ((k2, v2) :: rest) k2 v = (k2, v) :: rest := by
          simp [mapSet]
        have h2 : mapGet ((k2, v2) :: rest) k2 = some v2 := by
          simp [mapGet]
        rw [h1, h2]
        simp only [ledgerSum, List.map_cons, List.sum_cons, Option.getD_some]
        ring
      · have h1 : mapSet ((k2, v2) :: rest) k v =
            (k2, v2) :: mapSet rest k v := by
          simp [mapSet, hk]
        have h2 : mapGet ((k2, v2) :: rest) k = mapGet rest k := by
          simp [mapGet, hk]
        rw [h1, h2]
        simp only [ledgerSum, List.map_cons, List.sum_cons]
        unfold ledgerSum at ih
        rw [ih]
        ring

lemma ledgerSum_processLog (m : Ledger) (lg : RawLog) :
    ledgerSum (processLog m lg) = ledgerSum m + mintValue lg := by
  cases hd : transferDelta? lg with
  | none => simp [processLog, mintValue, hd]
  | some ftv =>
      obtain ⟨f, t, v⟩ := ftv
      simp only [processLog, mintValue, hd]
      rw [ledgerSum_mapSet]
      by_cases hf : f = ZERO_ADDRESS
      · have hdz : debitStep m f v = m := by
          unfold debitStep
          simp [hf]
        rw [hdz, if_pos hf]
        ring
      · have hdz : debitStep m f v =
            mapSet m f ((mapGet m f).getD 0 - v) := by
          unfold debitStep
          rw [if_pos hf]
        rw [hdz, if_neg hf, ledgerSum_mapSet]
        ring

lemma ledgerSum_foldl (logs : List RawLog) : ∀ m : Ledger,
    ledgerSum (logs.foldl processLog m) =
      ledgerSum m + (logs.map mintValue).sum := by
  induction logs with
  | nil => intro m; simp
  | cons lg rest ih =>
      intro m
      simp only [List.foldl_cons, List.map_cons, List.sum_cons]
      rw [ih (processLog m lg), ledgerSum_processLog]
      ring

lemma mintValue_eq_zero (lg : RawLog) (h : isMintLog lg = false) :
    mintValue lg = 0 := by
  unfold isMintLog at h
  unfold mintValue
  cases hd : transferDelta? lg with
  | none => rfl
  | some ftv =>
      obtain ⟨f, t, v⟩ := ftv
      rw [hd] at h
      simp only [beq_eq_false_iff_ne, ne_eq] at h
      show (if f = ZERO_ADDRESS then (v : Int) else 0) = 0
      rw [if_neg h]

/-! Lemmas about the batch loops. -/

lemma batchWriteGo_true_length : ∀ (ops : List (Option BatchOp)) (i : Nat),
    (batchWriteGo true i ops).results.length = ops.length ∧
    (batchWriteGo true i ops).results.map (fun e => e.index) =
      List.range' i ops.length := by
  intro ops
  induction ops with
  | nil => intro i; simp [batchWriteGo]
  | cons op rest ih =>
      intro i
      cases op with
      | none =>
          simp only [batchWriteGo, List.length_cons, List.map_cons]
          rw [List.range'_succ]
          have := ih (i + 1)
          simp [nullEntry, this.1, this.2]
      | some op =>
          cases hoc : op.outcome with
          | ok h =>
              simp only [batchWriteGo, hoc, List.length_cons, List.map_cons]
              rw [List.range'_succ]
              have := ih (i + 1)
              simp [this.1, this.2]
          | err m =>
              simp only [batchWriteGo, hoc, if_pos rfl, List.length_cons,
                List.map_cons]
              rw [List.range'_succ]
              have := ih (i + 1)
              simp [this.1, this.2]

lemma batchWriteGo_false_stops : ∀ (ops : List (Option BatchOp)) (i k : Nat),
    firstThrowIdx? ops = some k →
    (batchWriteGo false i ops).results.length = k + 1 ∧
    (∀ j ∈ (batchWriteGo false i ops).attempted, j ≤ i + k) := by
  intro ops
  induction ops with
  | nil => intro i k h; simp [firstThrowIdx?] at h
  | cons op rest ih =>
      intro i k h
      cases hop : opThrows op with
      | true =>
          rw [firstThrowIdx?, if_pos hop] at h
          obtain rfl : (0 : Nat) = k := Option.some.inj h
          cases op with
          | none => simp [opThrows] at hop
          | some op =>
              cases hoc : op.outcome with
              | ok hh => rw [opThrows, hoc] at hop; cases hop
              | err m =>
                  simp only [batchWriteGo, hoc, if_neg (Bool.false_ne_true)]
                  constructor
                  · rfl
                  · intro j hj
                    simp only [List.mem_singleton] at hj
                    omega
      | false =>
          rw [firstThrowIdx?, if_neg (by rw [hop]; exact Bool.false_ne_true)]
            at h
          cases hfi : firstThrowIdx? rest with
          | none => rw [hfi] at h; cases h
          | some k2 =>
              rw [hfi] at h
              have hk : k2 + 1 = k := by
                simpa using h
              subst hk
              have hrest := ih (i + 1) k2 hfi
              cases op with
              | none =>
                  simp only [batchWriteGo, List.length_cons]
                  refine ⟨by rw [hrest.1], ?_⟩
                  intro j hj
                  have := hrest.2 j hj
                  omega
              | some op =>
                  cases hoc : op.outcome with
                  | ok hh =>
                      simp only [batchWriteGo, hoc, List.length_cons]
                      refine ⟨by rw [hrest.1], ?_⟩
                      intro j hj
                      simp only [List.mem_cons] at hj
                      rcases hj with rfl | hj
                      · omega
                      · have := hrest.2 j hj
                        omega
                  | err m => rw [opThrows, hoc] at hop; cases hop

lemma batchWriteGo_attempted_sound :
    ∀ (ops : List (Option BatchOp)) (c : Bool) (i j : Nat),
    j ∈ (batchWriteGo c i ops).attempted →
    ∃ (k : Nat) (op : BatchOp), j = i + k ∧ ops[k]? = some (some op) := by
  intro ops
  induction ops with
  | nil => intro c i j hj; simp [batchWriteGo] at hj
  | cons op rest ih =>
      intro c i j hj
      cases op with
      | none =>
          simp only [batchWriteGo] at hj
          obtain ⟨k, op2, hk, hop2⟩ := ih c (i + 1) j hj
          exact ⟨k + 1, op2, by omega, by
            rw [List.getElem?_cons_succ]
            exact hop2⟩
      | some op =>
          cases hoc : op.outcome with
          | ok h =>
              simp only [batchWriteGo, hoc, List.mem_cons] at hj
              rcases hj with rfl | hj
              · exact ⟨0, op, by omega, by rw [List.getElem?_cons_zero]⟩
              · obtain ⟨k, op2, hk, hop2⟩ := ih c (i + 1) j hj
                exact ⟨k + 1, op2, by omega, by
                  rw [List.getElem?_cons_succ]
                  exact hop2⟩
          | err m =>
              cases c with
              | true =>
                  simp [batchWriteGo, hoc] at hj
                  rcases hj with rfl | hj
                  · exact ⟨0, op, by omega, by rw [List.getElem?_cons_zero]⟩
                  · obtain ⟨k, op2, hk, hop2⟩ := ih true (i + 1) j hj
                    exact ⟨k + 1, op2, by omega, by
                      rw [List.getElem?_cons_succ]
                      exact hop2⟩
              | false =>
                  simp [batchWriteGo, hoc] at hj
                  subst hj
                  exact ⟨0, op, by omega, by rw [List.getElem?_cons_zero]⟩

lemma batchWriteGo_null_entry :
    ∀ (ops : List (Option BatchOp)) (i k : Nat),
    ops[k]? = some none →
    nullEntry (i + k) ∈ (batchWriteGo true i ops).results := by
  intro ops
  induction ops with
  | nil => intro i k h; simp at h
  | cons op rest ih =>
      intro i k h
      cases k with
      | zero =>
          rw [List.getElem?_cons_zero] at h
          obtain rfl : op = none := Option.some.inj h
          simp only [batchWriteGo, List.mem_cons]
          left
          rfl
      | succ k2 =>
          rw [List.getElem?_cons_succ] at h
          have hmem := ih (i + 1) k2 h
          have harith : i + 1 + k2 = i + (k2 + 1) := by omega
          rw [harith] at hmem
          cases op with
          | none =>
              simp only [batchWriteGo, List.mem_cons]
              right
              exact hmem
          | some op =>
              cases hoc : op.outcome with
              | ok hh =>
                  simp only [batchWriteGo, hoc, List.mem_cons]
                  right
                  exact hmem
              | err m =>
                  simp only [batchWriteGo, hoc, if_pos rfl, List.mem_cons]
                  right
                  exact hmem

lemma batchTransferGo_sound :
    ∀ (transfers : List (Option TransferOp)) (i : Nat),
    (∀ e ∈ (batchTransferGo i transfers).results,
      ∃ (k : Nat) (tr : TransferOp), e.index = i + k ∧
        transfers[k]? = some (some tr)) ∧
    (∀ j ∈ (batchTransferGo i transfers).attempted,
      ∃ (k : Nat) (tr : TransferOp), j = i + k ∧
        transfers[k]? = some (some tr)) := by
  intro transfers
  induction transfers with
  | nil => intro i; simp [batchTransferGo]
  | cons tr rest ih =>
      intro i
      cases tr with
      | none =>
          simp only [batchTransferGo]
          constructor
          · intro e he
            obtain ⟨k, tr2, hk, htr2⟩ := (ih (i + 1)).1 e he
            exact ⟨k + 1, tr2, by omega, by
              rw [List.getElem?_cons_succ]
              exact htr2⟩
          · intro j hj
            obtain ⟨k, tr2, hk, htr2⟩ := (ih (i + 1)).2 j hj
            exact ⟨k + 1, tr2, by omega, by
              rw [List.getElem?_cons_succ]
              exact htr2⟩
      | some tr =>
          cases hoc : tr.outcome with
          | ok h =>
              simp only [batchTransferGo, hoc, List.mem_cons]
              constructor
              · intro e he
                rcases he with rfl | he
                · exact ⟨0, tr, rfl, by rw [List.getElem?_cons_zero]⟩
                · obtain ⟨k, tr2, hk, htr2⟩ := (ih (i + 1)).1 e he
                  exact ⟨k + 1, tr2, by omega, by
                    rw [List.getElem?_cons_succ]
                    exact htr2⟩
              · intro j hj
                rcases hj with rfl | hj
                · exact ⟨0, tr, rfl, by rw [List.getElem?_cons_zero]⟩
                · obtain ⟨k, tr2, hk, htr2⟩ := (ih (i + 1)).2 j hj
                  exact ⟨k + 1, tr2, by omega, by
                    rw [List.getElem?_cons_succ]
                    exact htr2⟩
          | err m =>
              simp only [batchTransferGo, hoc, List.mem_cons]
              constructor
              · intro e he
                rcases he with rfl | he
                · exact ⟨0, tr, rfl, by rw [List.getElem?_cons_zero]⟩
                · obtain ⟨k, tr2, hk, htr2⟩ := (ih (i + 1)).1 e he
                  exact ⟨k + 1, tr2, by omega, by
                    rw [List.getElem?_cons_succ]
                    exact htr2⟩
              · intro j hj
                rcases hj with rfl | hj
                · exact ⟨0, tr, rfl, by rw [List.getElem?_cons_zero]⟩
                · obtain ⟨k, tr2, hk, htr2⟩ := (ih (i + 1)).2 j hj
                  exact ⟨k + 1, tr2, by omega, by
                    rw [List.getElem?_cons_succ]
                    exact htr2⟩

/-! The claim theorems. -/

/-- C1: for every explicit block range with `fromBlock ≤ toBlock` whose span
exceeds the 1000-block provider limit, `getContractEvents` issues consecutive
sub-range queries whose concatenation covers `[fromBlock, toBlock]` exactly
once, in order, with no gaps and no overlaps; in particular `fromBlock = 100`,
`toBlock = 2500` is fetched as `[100,1100]`, `[1101,2101]`, `[2102,2500]`. -/
theorem getContractEvents_chunk_cover (f t l : Int) (hf : f ≠ 0) (ht : t ≠ 0)
    (hle : f ≤ t) (hspan : MAX_BLOCK_RANGE < t - f) :
    coveredBlocks (getContractEventsQueries (some f) (some t) l) =
      blockList f t ∧
    getContractEventsQueries (some 100) (some 2500) l =
      [(100, 1100), (1101, 2101), (2102, 2500)] := by
  constructor
  · simp only [coveredBlocks, getContractEventsQueries,
      resolveEventRange_explicit f t l hf ht]
    rw [if_pos hspan]
    exact chunkRanges_cover t f
  · simp only [getContractEventsQueries,
      resolveEventRange_explicit 100 2500 l (by norm_num) (by norm_num)]
    rw [if_pos (by norm_num [MAX_BLOCK_RANGE])]
    exact chunkRanges_100_2500

/-- Witness for C1 at `fromBlock = 100`, `toBlock = 2500`. -/
theorem getContractEvents_chunk_cover_witness :
    coveredBlocks (getContractEventsQueries (some 100) (some 2500) 0) =
      blockList 100 2500 ∧
    getContractEventsQueries (some 100) (some 2500) 0 =
      [(100, 1100), (1101, 2101), (2102, 2500)] :=
  getContractEvents_chunk_cover 100 2500 0 (by norm_num) (by norm_num)
    (by norm_num) (by norm_num [MAX_BLOCK_RANGE])

/-- C2: the balance ledger built by the event fold of `getERC20TopHolders`
is, as an address-to-delta mapping, invariant under permutation of the input
log sequence (for well-formed Transfer logs, and indeed for any logs). -/
theorem ledger_perm_invariant (l1 l2 : List RawLog) (hperm : l1.Perm l2)
    (hwf : ∀ lg ∈ l1, isWellFormedTransferLog lg = true) (a : String) :
    mapGet (buildLedger l1) a = mapGet (buildLedger l2) a := by
  unfold buildLedger
  rw [foldl_processLog_get, foldl_processLog_get]
  simp only [mapGet, Option.isSome_none, Bool.false_or]
  rw [any_touchesB_perm l1 l2 hperm a, netDelta_perm l1 l2 hperm a]

/-- Witness for C2: swapping two concrete well-formed Transfer logs leaves
address B's ledger entry unchanged. -/
theorem ledger_perm_invariant_witness :
    mapGet (buildLedger [logAB, logBA]) addrB =
      mapGet (buildLedger [logBA, logAB]) addrB :=
  ledger_perm_invariant [logAB, logBA] [logBA, logAB]
    (List.Perm.swap logBA logAB []) (by decide) addrB

/-- C3: in `batchWriteContract` with `continueOnError = false`, if some
operation's write throws then the result list has exactly (index of the
first throwing operation) + 1 entries and no later operation is attempted;
with `continueOnError = true` the result list has one entry per input
operation, in input order. -/
theorem batchWriteContract_lengths (ops : List (Option BatchOp)) (k : Nat)
    (hthrow : firstThrowIdx? ops = some k) :
    (batchWriteContract ops false).results.length = k + 1 ∧
    (∀ j ∈ (batchWriteContract ops false).attempted, j ≤ k) ∧
    (batchWriteContract ops true).results.length = ops.length ∧
    (batchWriteContract ops true).results.map (fun e => e.index) =
      List.range ops.length := by
  have hf := batchWriteGo_false_stops ops 0 k hthrow
  have ht := batchWriteGo_true_length ops 0
  refine ⟨hf.1, ?_, ht.1, ?_⟩
  · intro j hj
    have := hf.2 j hj
    omega
  · rw [List.range_eq_range']
    exact ht.2

/-- Witness for C3 on a three-operation list whose write throws at index 1:
aborting mode stops after two entries, continuing mode keeps all three. -/
theorem batchWriteContract_lengths_witness :
    (batchWriteContract demoOps false).results.length = 2 ∧
    (batchWriteContract demoOps true).results.length = 3 :=
  ⟨(batchWriteContract_lengths demoOps 1 rfl).1,
   (batchWriteContract_lengths demoOps 1 rfl).2.2.1⟩

/-- C4 counterexample: called with explicit `fromBlock = 5 > toBlock = 3`,
`getContractEvents` raises no invalid-range error at all: it issues exactly
one `getLogs` query with the inverted range `(5, 3)` (the span check sends
it to the single-query branch), and with a succeeding `getLogs` oracle it
returns `ok` instead of failing. -/
theorem getContractEvents_inverted_range_counterexample :
    getContractEventsQueries (some 5) (some 3) 0 = [(5, 3)] ∧
    getContractEventsModel (some 5) (some 3) 0 constEmptyLogs =
      Except.ok [] := by
  constructor <;> rfl

/-- C4 amended: `getContractEvents` performs no `fromBlock > toBlock`
validation; with explicit nonzero bounds `fromBlock > toBlock` it issues a
single `getLogs` query with the inverted range instead of failing.  The
`fromBlock > toBlock` check lives in `getERC20TopHolders`, which errors with
"fromBlock cannot be greater than toBlock" before fetching any logs. -/
theorem getContractEvents_no_range_validation (f t l : Int) (hf : f ≠ 0)
    (ht : t ≠ 0) (hlt : t < f) :
    getContractEventsQueries (some f) (some t) l = [(f, t)] ∧
    erc20RangeCheck f t =
      Except.error "fromBlock cannot be greater than toBlock" := by
  constructor
  · simp only [getContractEventsQueries, resolveEventRange_explicit f t l hf ht]
    rw [if_neg (by simp only [MAX_BLOCK_RANGE]; omega)]
  · unfold erc20RangeCheck
    rw [if_pos (by omega)]

/-- Witness for the amended C4 at `fromBlock = 5`, `toBlock = 3`. -/
theorem getContractEvents_no_range_validation_witness :
    getContractEventsQueries (some 5) (some 3) 0 = [(5, 3)] ∧
    erc20RangeCheck 5 3 =
      Except.error "fromBlock cannot be greater than toBlock" :=
  getContractEvents_no_range_validation 5 3 0 (by norm_num) (by norm_num)
    (by norm_num)

/-- C5 counterexample: a null transfer given to `batchTransferNative` or
`batchTransferERC20` produces no synthetic failure entry at all — the loop
skips it with `if (!transfer) continue;`, so the result list stays empty and
the failure counter stays 0, contradicting the claim that all three batch
functions record `{index, success: false, error}` for null entries. -/
theorem batchTransfer_null_skipped_counterexample :
    (batchTransferNative [none]).results = [] ∧
    (batchTransferNative [none]).failedTransfers = 0 ∧
    (batchTransferERC20 18 [none]).results = [] ∧
    (batchTransferERC20 18 [none]).failedTransfers = 0 :=
  ⟨rfl, rfl, rfl, rfl⟩

/-- C5 amended: only `batchWriteContract` records an immediate synthetic
failure entry for a null operation (and never attempts its write);
`batchTransferNative` and `batchTransferERC20` silently skip a null
transfer: no result entry carries its index, and its index is never
attempted (no network call). -/
theorem null_operation_handling (ops : List (Option BatchOp)) (c : Bool)
    (transfers : List (Option TransferOp)) (dec i : Nat)
    (hop : ops[i]? = some none) (htr : transfers[i]? = some none) :
    nullEntry i ∈ (batchWriteContract ops true).results ∧
    i ∉ (batchWriteContract ops c).attempted ∧
    (∀ e ∈ (batchTransferNative transfers).results, e.index ≠ i) ∧
    i ∉ (batchTransferNative transfers).attempted ∧
    (∀ e ∈ (batchTransferERC20 dec transfers).results, e.index ≠ i) ∧
    i ∉ (batchTransferERC20 dec transfers).attempted := by
  have hwr : nullEntry i ∈ (batchWriteContract ops true).results := by
    have := batchWriteGo_null_entry ops 0 i hop
    simpa using this
  have hwa : i ∉ (batchWriteContract ops c).attempted := by
    intro hmem
    obtain ⟨k, op2, hk, hop2⟩ :=
      batchWriteGo_attempted_sound ops c 0 i hmem
    have hk0 : k = i := by omega
    subst hk0
    rw [hop] at hop2
    cases Option.some.inj hop2
  have hts := batchTransferGo_sound transfers 0
  refine ⟨hwr, hwa, ?_, ?_, ?_, ?_⟩
  · intro e he hei
    obtain ⟨k, tr2, hk, htr2⟩ := hts.1 e he
    have hk0 : k = i := by omega
    subst hk0
    rw [htr] at htr2
    cases Option.some.inj htr2
  · intro hmem
    obtain ⟨k, tr2, hk, htr2⟩ := hts.2 i hmem
    have hk0 : k = i := by omega
    subst hk0
    rw [htr] at htr2
    cases Option.some.inj htr2
  · intro e he hei
    obtain ⟨k, tr2, hk, htr2⟩ := hts.1 e he
    have hk0 : k = i := by omega
    subst hk0
    rw [htr] at htr2
    cases Option.some.inj htr2
  · intro hmem
    obtain ⟨k, tr2, hk, htr2⟩ := hts.2 i hmem
    have hk0 : k = i := by omega
    subst hk0
    rw [htr] at htr2
    cases Option.some.inj htr2

/-- Witness for the amended C5 on singleton null lists. -/
theorem null_operation_handling_witness :
    nullEntry 0 ∈ (batchWriteContract [none] true).results ∧
    0 ∉ (batchTransferNative [none]).attempted :=
  ⟨(null_operation_handling [none] true [none] 18 0 rfl rfl).1,
   (null_operation_handling [none] true [none] 18 0 rfl rfl).2.2.2.1⟩

/-- C6: for every balance ledger and every valid limit, the ranked holder
list has at most `limit` entries, every entry's raw balance is strictly
positive, and balances are non-increasing along the list. -/
theorem topHolders_ranked (balances : Ledger) (limit : Nat)
    (h1 : 1 ≤ limit) (h2 : limit ≤ 100) :
    (topHolders balances limit).length ≤ limit ∧
    (∀ e ∈ topHolders balances limit, 0 < e.balanceRaw) ∧
    (∀ i j, i < j → j < (topHolders balances limit).length →
      ((topHolders balances limit).getD j ⟨"", 0⟩).balanceRaw ≤
        ((topHolders balances limit).getD i ⟨"", 0⟩).balanceRaw) := by
  refine ⟨?_, ?_, ?_⟩
  · simp only [topHolders, List.length_map, List.length_take]
    exact min_le_left _ _
  · intro e he
    simp only [topHolders, List.mem_map] at he
    obtain ⟨p, hp, hpe⟩ := he
    have hp2 : p ∈ holdersWithBalance balances := List.mem_of_mem_take hp
    have hp3 : p ∈ balances.filter (fun p => decide (0 < p.2)) :=
      (List.mergeSort_perm _ _).mem_iff.mp hp2
    have hp4 := (List.mem_filter.mp hp3).2
    rw [← hpe]
    exact of_decide_eq_true hp4
  · intro i j hij hj
    have hsorted : List.Pairwise
        (fun x y : String × Int => decide (y.2 ≤ x.2) = true)
        (holdersWithBalance balances) := by
      apply List.sorted_mergeSort
      · intro a b c hab hbc
        simp only [decide_eq_true_eq] at *
        omega
      · intro a b
        simp only [Bool.or_eq_true, decide_eq_true_eq]
        omega
    have htake : List.Pairwise
        (fun x y : String × Int => decide (y.2 ≤ x.2) = true)
        ((holdersWithBalance balances).take limit) :=
      List.Pairwise.sublist (List.take_sublist _ _) hsorted
    have hmapped : List.Pairwise
        (fun x y : HolderEntry => y.balanceRaw ≤ x.balanceRaw)
        (topHolders balances limit) := by
      unfold topHolders
      rw [List.pairwise_map]
      exact htake.imp (fun h => of_decide_eq_true h)
    have hi : i < (topHolders balances limit).length := lt_trans hij hj
    rw [List.getD_eq_getElem _ _ hj, List.getD_eq_getElem _ _ hi]
    exact List.pairwise_iff_getElem.mp hmapped i j hi hj hij

/-- Witness for C6 on a concrete two-holder ledger with limit 2. -/
theorem topHolders_ranked_witness :
    (topHolders demoLedger 2).length ≤ 2 :=
  (topHolders_ranked demoLedger 2 (by decide) (by decide)).1

/-- C7: a Transfer log whose decoded from-address is the all-zero address is
treated as a mint: the fold adds the value to the recipient's entry and
leaves every other ledger entry untouched (no entry is decremented). -/
theorem mint_credits_without_debit (m : Ledger) (lg : RawLog) (f t : String)
    (v : Nat) (h : transferDelta? lg = some (f, t, v))
    (hf : f = ZERO_ADDRESS) :
    mapGet (processLog m lg) t = some ((mapGet m t).getD 0 + v) ∧
    ∀ a, a ≠ t → mapGet (processLog m lg) a = mapGet m a := by
  subst hf
  simp only [processLog, h]
  have hdz : debitStep m ZERO_ADDRESS v = m := by
    unfold debitStep
    simp
  rw [hdz]
  constructor
  · rw [mapGet_mapSet, if_pos rfl]
  · intro a ha
    rw [mapGet_mapSet, if_neg (fun hh => ha hh.symm)]

/-- Witness for C7 on a concrete mint log: B is credited with 100 and A's
(absent) entry is untouched. -/
theorem mint_credits_without_debit_witness :
    mapGet (processLog [] mintLogB) addrB =
      some ((mapGet ([] : Ledger) addrB).getD 0 + (100 : Nat)) ∧
    mapGet (processLog [] mintLogB) addrA = mapGet ([] : Ledger) addrA :=
  ⟨(mint_credits_without_debit [] mintLogB ZERO_ADDRESS addrB 100
      (by decide) rfl).1,
   (mint_credits_without_debit [] mintLogB ZERO_ADDRESS addrB 100
      (by decide) rfl).2 addrA (by decide)⟩

/-- C8: on `TEST_NETWORK` (no aggregate3 support) `multicall3` falls back to
the all-or-nothing `aggregate` call; when that call succeeds — returning, by
the aggregate contract, one payload per input call — the function returns
exactly one entry per input call, in input order, each with
`success = true`. -/
theorem multicall3_aggregate_fallback (calls : List MulticallCall)
    (rds : List String) (ag3 : Except String (List (Bool × String)))
    (hlen : rds.length = calls.length) :
    multicall3Model TEST_NETWORK (Except.ok rds) ag3 =
      Except.ok (toAggregateResults rds) ∧
    (toAggregateResults rds).length = calls.length ∧
    (∀ e ∈ toAggregateResults rds, e.success = true) ∧
    (∀ i, i < calls.length →
      ((toAggregateResults rds).getD i ⟨false, ""⟩).returnData =
        rds.getD i "") := by
  refine ⟨?_, ?_, ?_, ?_⟩
  · unfold multicall3Model
    rw [if_pos rfl]
  · simp [toAggregateResults, hlen]
  · intro e he
    simp only [toAggregateResults, List.mem_map] at he
    obtain ⟨rd, _, hrd⟩ := he
    rw [← hrd]
  · intro i hi
    have hi2 : i < rds.length := by omega
    have hi3 : i < (toAggregateResults rds).length := by
      simp [toAggregateResults]
      omega
    rw [List.getD_eq_getElem _ _ hi3, List.getD_eq_getElem _ _ hi2]
    simp [toAggregateResults]

/-- Witness for C8 on two concrete calls with a matching aggregate payload. -/
theorem multicall3_aggregate_fallback_witness :
    multicall3Model TEST_NETWORK (Except.ok demoReturnData)
        (Except.error "aggregate3 unsupported") =
      Except.ok (toAggregateResults demoReturnData) ∧
    (toAggregateResults demoReturnData).length = demoCalls.length :=
  ⟨(multicall3_aggregate_fallback demoCalls demoReturnData
      (Except.error "aggregate3 unsupported") rfl).1,
   (multicall3_aggregate_fallback demoCalls demoReturnData
      (Except.error "aggregate3 unsupported") rfl).2.1⟩

/-- C9: the sum of all balance deltas in the ledger equals the sum of the
values of the mint logs; in particular with no mint logs the deltas sum to
zero. -/
theorem ledger_deltas_sum_to_mints (logs : List RawLog) :
    ledgerSum (buildLedger logs) = (logs.map mintValue).sum ∧
    ((∀ lg ∈ logs, isMintLog lg = false) →
      ledgerSum (buildLedger logs) = 0) := by
  have hmain : ledgerSum (buildLedger logs) = (logs.map mintValue).sum := by
    unfold buildLedger
    rw [ledgerSum_foldl]
    simp [ledgerSum]
  refine ⟨hmain, fun hall => ?_⟩
  rw [hmain]
  have hz : ∀ x ∈ logs.map mintValue, x = 0 := by
    intro x hx
    rw [List.mem_map] at hx
    obtain ⟨lg, hlg, hval⟩ := hx
    rw [← hval]
    exact mintValue_eq_zero lg (hall lg hlg)
  exact List.sum_eq_zero hz

/-- Witness for C9: a mix with one mint, and a mint-free pair summing to
zero. -/
theorem ledger_deltas_sum_to_mints_witness :
    ledgerSum (buildLedger [logAB, logBA, mintLogB]) =
      ([logAB, logBA, mintLogB].map mintValue).sum ∧
    ledgerSum (buildLedger [logAB, logBA]) = 0 :=
  ⟨(ledger_deltas_sum_to_mints [logAB, logBA, mintLogB]).1,
   (ledger_deltas_sum_to_mints [logAB, logBA]).2 (by decide)⟩

/-- C10: a caller-supplied `fromBlock = 0` or `toBlock = 0` is treated as
absent by both `getContractEvents` and `getERC20TopHolders` (the guard tests
JS falsiness, not `undefined`), and the bound is replaced by the
latest-block-derived default (`latest - 1000` / `latest` for events,
`max 0 (latest - 10000)` / `latest` for holder analytics), so block 0 can
never be used as an explicit range bound. -/
theorem zero_block_bound_treated_absent (fb tb : Option Int) (l : Int) :
    resolveEventRange (some 0) tb l = resolveEventRange none tb l ∧
    resolveEventRange fb (some 0) l = resolveEventRange fb none l ∧
    (resolveEventRange (some 0) tb l).1 = l - 1000 ∧
    (resolveEventRange fb (some 0) l).2 = l ∧
    resolveHoldersRange (some 0) tb l = resolveHoldersRange none tb l ∧
    resolveHoldersRange fb (some 0) l = resolveHoldersRange fb none l ∧
    (resolveHoldersRange (some 0) tb l).1 = max 0 (l - 10000) ∧
    (resolveHoldersRange fb (some 0) l).2 = l := by
  cases fb <;> cases tb <;>
    simp [resolveEventRange, resolveHoldersRange, jsFalsy, jsOr] <;>
    split_ifs <;> simp_all

end SomniaMcp
